import Mathlib

/-
Verification of the CRDT sync core of the lestash repository.

The embedding covers:
- `lestash/core/crsqlite.py`: `get_changes_since`, `apply_changes`,
  `export_changes_to_file`, `import_changes_from_file`, `rebuild_fts_index`;
- `lestash/server/app.py`: `_serialize_change`, `_deserialize_change`,
  the `GET /sync/changes` and `POST /sync/changes` endpoints.

The merge rule itself (what an `INSERT INTO crsql_changes` does) lives in the
external cr-sqlite SQLite extension, not in the repository source; those parts
are modelled from the spec (winner rule of §3/§4.2) and are marked as such.
-/

/-- A SQLite/JSON value as it flows through the sync code: NULL, integer,
text, or blob (Python `bytes`, modelled as a list of byte values). -/
inductive Val where
  | vNull : Val
  | vInt : Int → Val
  | vStr : String → Val
  | vBytes : List Nat → Val
deriving DecidableEq, Repr

/-- One hex digit character, lowercase, as produced by Python `bytes.hex()`. -/
def hexDigitChar (n : Nat) : Char :=
  if n < 10 then Char.ofNat (48 + n) else Char.ofNat (87 + n)

/-- The two hex characters of one byte (Python `bytes.hex()` per byte). -/
def byteHexChars (b : Nat) : List Char :=
  [hexDigitChar (b % 256 / 16), hexDigitChar (b % 16)]

/-- Character list of the hex encoding of a byte string. -/
def bytesHexChars (bs : List Nat) : List Char :=
  bs.foldr (fun b acc => byteHexChars b ++ acc) []

/-- Python `bytes.hex()`: lowercase hex string, two digits per byte. -/
def bytesHex (bs : List Nat) : String := ⟨bytesHexChars bs⟩

/-- Value of a hex digit character (0-9, a-f, A-F), or `none`. -/
def hexDigitVal (c : Char) : Option Nat :=
  if 48 ≤ c.toNat ∧ c.toNat ≤ 57 then some (c.toNat - 48)
  else if 97 ≤ c.toNat ∧ c.toNat ≤ 102 then some (c.toNat - 87)
  else if 65 ≤ c.toNat ∧ c.toNat ≤ 70 then some (c.toNat - 55)
  else none

/-- ASCII whitespace, which Python `bytes.fromhex` skips between bytes. -/
def isAsciiSpaceChar (c : Char) : Bool :=
  c.toNat == 32 || c.toNat == 9 || c.toNat == 10 ||
  c.toNat == 13 || c.toNat == 11 || c.toNat == 12

/-- Core loop of Python `bytes.fromhex`: skip ASCII whitespace, then read two
hex digits per byte; any other shape is a `ValueError`, modelled as `none`. -/
def fromhexChars : List Char → Option (List Nat)
  | [] => some []
  | c :: rest =>
    if isAsciiSpaceChar c then fromhexChars rest
    else
      match hexDigitVal c with
      | none => none
      | some hi =>
        match rest with
        | [] => none
        | c2 :: rest2 =>
          match hexDigitVal c2 with
          | none => none
          | some lo =>
            match fromhexChars rest2 with
            | some bs => some ((16 * hi + lo) :: bs)
            | none => none

/-- Python `bytes.fromhex`: `none` models the `ValueError` on invalid input. -/
def bytesFromhex (s : String) : Option (List Nat) := fromhexChars s.data

/-- A row of `crsql_changes`, the wire/file ChangeRecord of the sync protocol:
fields `table`, `pk`, `cid`, `val`, `col_version`, `db_version`, `site_id`,
`cl`, `seq` exactly as selected/inserted by `crsqlite.py`. -/
structure ChangeRecord where
  table : String
  pk : Val
  cid : String
  val : Val
  col_version : Int
  db_version : Int
  site_id : Val
  cl : Int
  seq : Int
deriving DecidableEq, Repr

/-- Modelled from the spec: byte-wise lexicographic `<` on site ids, the
"deterministic, replica-independent total order" of §3 used to break
`column_version` ties; the comparison itself happens inside the cr-sqlite
extension, which is not part of the repository source. -/
def lexLtBytes : List Nat → List Nat → Bool
  | [], [] => false
  | [], _ :: _ => true
  | _ :: _, [] => false
  | a :: as, b :: bs => if a < b then true else if b < a then false else lexLtBytes as bs

/-- The byte string of a site id value (blob contents; NULL compares as empty). -/
def siteBytes : Val → List Nat
  | Val.vBytes b => b
  | _ => []

/-- Strict comparison of (column_version, site_id bytes) pairs: the conflict
key ordering of the winner rule. -/
def verLt (a b : Int × List Nat) : Bool :=
  decide (a.1 < b.1) || (decide (a.1 = b.1) && lexLtBytes a.2 b.2)

/-- The conflict key of a record: its `col_version` and site id bytes. -/
def ordKey (r : ChangeRecord) : Int × List Nat := (r.col_version, siteBytes r.site_id)

/-- Modelled from the spec (§4.2): the incoming record beats the local record
for the same cell iff its `column_version` is strictly greater, or equal with
a strictly greater `site_id` under the byte-wise tiebreak. -/
def wins (inc loc : ChangeRecord) : Bool := verLt (ordKey loc) (ordKey inc)

/-- The cell a record concerns: (table, primary key, column). -/
def keyOf (r : ChangeRecord) : String × Val × String := (r.table, r.pk, r.cid)

/-- The current record stored for a cell in a change ledger. -/
def lookupCell (led : List ChangeRecord) (k : String × Val × String) : Option ChangeRecord :=
  led.find? (fun r => decide (keyOf r = k))

/-- Winner of an optional local record and an incoming record (spec §4.2:
no local record, or incoming wins, means accept incoming; otherwise keep). -/
def resolve (o : Option ChangeRecord) (r : ChangeRecord) : ChangeRecord :=
  match o with
  | none => r
  | some a => if wins r a then r else a

/-- Modelled from the spec: the effect of one `INSERT INTO crsql_changes` on
the per-cell ledger held by cr-sqlite — the stored record for the incoming
record's cell becomes the winner under the rule of §3/§4.2, and records of
other cells are untouched; this merge step is performed by the cr-sqlite
extension, which is not in the repository source. -/
def mergeOne (led : List ChangeRecord) (r : ChangeRecord) : List ChangeRecord :=
  if led.any (fun l => decide (keyOf l = keyOf r)) then
    led.map (fun l => if keyOf l = keyOf r then (if wins r l then r else l) else l)
  else led ++ [r]

/-- The sync-relevant schema: replicated tables and their columns. -/
structure Schema where
  tables : List (String × List String)
deriving DecidableEq, Repr

/-- Whether `t` is a known replicated table with a column named `c`. -/
def Schema.hasColumn (s : Schema) (t c : String) : Bool :=
  s.tables.any (fun p => decide (p.1 = t) && p.2.any (fun col => decide (col = c)))

/-- A local replica: its schema, site id, logical clock, and the contents of
its `crsql_changes` ledger (one current record per cell). -/
structure Replica where
  schema : Schema
  siteId : List Nat
  dbVersion : Int
  ledger : List ChangeRecord
deriving DecidableEq, Repr

/-- Python truthiness of a value, as used by
`bytes.fromhex(change["site_id"]) if change["site_id"] else None`. -/
def pyTruthy : Val → Bool
  | Val.vNull => false
  | Val.vInt i => decide (i ≠ 0)
  | Val.vStr s => !s.data.isEmpty
  | Val.vBytes b => !b.isEmpty

/-- The `site_id` conversion inside `apply_changes`: hex-decode a truthy
site id (a `ValueError`/`TypeError`, which `apply_changes` does not catch,
is modelled as `Except.error`), and map a falsy one to NULL. -/
def siteIdFromWire (v : Val) : Except String Val :=
  if pyTruthy v then
    match v with
    | Val.vStr s =>
      match bytesFromhex s with
      | some b => Except.ok (Val.vBytes b)
      | none => Except.error "ValueError: non-hexadecimal site_id"
    | _ => Except.error "TypeError: fromhex argument must be str"
  else Except.ok Val.vNull

/-- A wire record with its `site_id` converted back to bytes, as
`apply_changes` hands it to the cr-sqlite insert. -/
def fromWire (c : ChangeRecord) : ChangeRecord :=
  match siteIdFromWire c.site_id with
  | Except.ok v => { c with site_id := v }
  | Except.error _ => c

/-- Outcome of the `apply_changes` loop body: every record inserted and
committed; a `sqlite3.Error` (modelled from the spec: inserting a record for
an unknown table or column fails) caught by the handler; or a
`ValueError`/`TypeError` from the site id conversion, which the handler does
not catch. -/
inductive ApplyOutcome where
  | committed : List ChangeRecord → Nat → ApplyOutcome
  | sqlError : ApplyOutcome
  | valueError : String → ApplyOutcome
deriving DecidableEq, Repr

/-- The `for change in changes` loop of `apply_changes`: convert `site_id`,
insert into `crsql_changes`, and count each inserted record. -/
def applyLoop (s : Schema) : List ChangeRecord → List ChangeRecord → Nat → ApplyOutcome
  | led, [], n => ApplyOutcome.committed led n
  | led, c :: rest, n =>
    match siteIdFromWire c.site_id with
    | Except.error e => ApplyOutcome.valueError e
    | Except.ok sid =>
      let r := { c with site_id := sid }
      if s.hasColumn r.table r.cid then applyLoop s (mergeOne led r) rest (n + 1)
      else ApplyOutcome.sqlError

/-- `crsqlite.apply_changes`: insert every record, commit, and return the
count; on `sqlite3.Error` roll back and return `(unchanged state, 0)`; a
`ValueError` escapes (`Except.error`) and nothing is committed. -/
def apply_changes (rep : Replica) (changes : List ChangeRecord) :
    Except String (Replica × Nat) :=
  match applyLoop rep.schema rep.ledger changes 0 with
  | ApplyOutcome.committed led n => Except.ok ({ rep with ledger := led }, n)
  | ApplyOutcome.sqlError => Except.ok (rep, 0)
  | ApplyOutcome.valueError e => Except.error e

/-- The `ORDER BY db_version, seq` ordering of the export query. -/
def rowLe (a b : ChangeRecord) : Bool :=
  decide (a.db_version < b.db_version) ||
  (decide (a.db_version = b.db_version) && decide (a.seq ≤ b.seq))

/-- Insert a record into a list sorted by `rowLe`. -/
def insertSorted (r : ChangeRecord) : List ChangeRecord → List ChangeRecord
  | [] => [r]
  | x :: xs => if rowLe r x then r :: x :: xs else x :: insertSorted r xs

/-- Sort a change list by `(db_version, seq)`, as `ORDER BY db_version, seq`. -/
def sortChanges : List ChangeRecord → List ChangeRecord
  | [] => []
  | x :: xs => insertSorted x (sortChanges xs)

/-- The `row[6].hex() if row[6] else None` conversion of `get_changes_since`:
a truthy site id blob becomes its hex string, a falsy one becomes NULL. -/
def siteToWire : Val → Val
  | Val.vBytes b => if b.isEmpty then Val.vNull else Val.vStr (bytesHex b)
  | _ => Val.vNull

/-- A ledger row as `get_changes_since` returns it: `site_id` hex-encoded. -/
def toWire (r : ChangeRecord) : ChangeRecord := { r with site_id := siteToWire r.site_id }

/-- `crsqlite.get_changes_since`: rows of `crsql_changes` with
`db_version > since_version` (optionally excluding one site), ordered by
`(db_version, seq)`, with `site_id` hex-encoded; if the query raises a
database error the handler returns the empty list (`query_error` models
whether the underlying query raises). -/
def get_changes_since (rep : Replica) (since_version : Int)
    (exclude_site_id : Option (List Nat)) (query_error : Bool) : List ChangeRecord :=
  if query_error then []
  else
    let base := match exclude_site_id with
      | some sid => rep.ledger.filter
          (fun r => decide (since_version < r.db_version) && decide (r.site_id ≠ Val.vBytes sid))
      | none => rep.ledger.filter (fun r => decide (since_version < r.db_version))
    (sortChanges base).map toWire

/-- The parsed contents of a sync export file (`export_data` in the source). -/
structure ExportFile where
  format : String
  site_id : Val
  db_version : Int
  since_version : Int
  change_count : Nat
  changes : List ChangeRecord
deriving DecidableEq, Repr

/-- `crsqlite.export_changes_to_file`: bundle the changes since
`since_version` with replica metadata under the `lestash-crsqlite-v1` tag. -/
def export_changes_to_file (rep : Replica) (since_version : Int)
    (query_error : Bool) : ExportFile :=
  let changes := get_changes_since rep since_version none query_error
  { format := "lestash-crsqlite-v1"
    site_id := if rep.siteId.isEmpty then Val.vNull else Val.vStr (bytesHex rep.siteId)
    db_version := rep.dbVersion
    since_version := since_version
    change_count := changes.length
    changes := changes }

/-- The metadata dict returned by `import_changes_from_file`. -/
structure ImportResult where
  source_site_id : Val
  source_db_version : Int
  changes_received : Nat
  changes_applied : Nat
deriving DecidableEq, Repr

/-- `crsqlite.import_changes_from_file`: reject a file whose `format` field is
not exactly `lestash-crsqlite-v1` with a `ValueError` (raised before any
record reaches `apply_changes`), otherwise apply the records and report the
received and applied counts. -/
def import_changes_from_file (rep : Replica) (file : ExportFile) :
    Except String (Replica × ImportResult) :=
  if file.format ≠ "lestash-crsqlite-v1" then
    Except.error ("Unknown export format: " ++ file.format)
  else
    match apply_changes rep file.changes with
    | Except.ok (rep2, n) =>
      Except.ok (rep2,
        { source_site_id := file.site_id
          source_db_version := file.db_version
          changes_received := file.changes.length
          changes_applied := n })
    | Except.error e => Except.error e

/-- `app._serialize_change`: replace every `bytes` field value of the record
dict by its hex string (only the `pk`, `val` and `site_id` fields can hold
bytes; the remaining fields are str/int typed). -/
def hexIfBytes : Val → Val
  | Val.vBytes b => Val.vStr (bytesHex b)
  | v => v

/-- `app._serialize_change` on a change record. -/
def serialize_change (c : ChangeRecord) : ChangeRecord :=
  { c with pk := hexIfBytes c.pk, val := hexIfBytes c.val, site_id := hexIfBytes c.site_id }

/-- `app._deserialize_change`: hex-decode a string `pk` back to bytes,
silently keeping the string when decoding raises `ValueError`
(`contextlib.suppress(ValueError)`); no other field is touched. -/
def deserialize_change (c : ChangeRecord) : ChangeRecord :=
  match c.pk with
  | Val.vStr s =>
    match bytesFromhex s with
    | some b => { c with pk := Val.vBytes b }
    | none => c
  | _ => c

/-- The response body of `POST /sync/changes`. -/
structure ApplyChangesResponse where
  applied : Nat
  db_version : Int
deriving DecidableEq, Repr

/-- What a `POST /sync/changes` request leaves behind: the response, the
replica state, and whether `rebuild_fts_index` was invoked. -/
structure PushOutcome where
  response : ApplyChangesResponse
  state : Replica
  ftsRebuilt : Bool
deriving DecidableEq, Repr

/-- The `POST /sync/changes` endpoint of `app.py`: deserialize the records,
apply them, rebuild the FTS index when `applied > 0`, and answer with the
applied count and the replica's `db_version`. -/
def apply_changes_endpoint (rep : Replica) (request : List ChangeRecord) :
    Except String PushOutcome :=
  let deserialized := request.map deserialize_change
  match apply_changes rep deserialized with
  | Except.ok (rep2, applied) =>
    Except.ok
      { response := { applied := applied, db_version := rep2.dbVersion }
        state := rep2
        ftsRebuilt := decide (0 < applied) }
  | Except.error e => Except.error e

/-- The `GET /sync/changes` endpoint of `app.py`: the changes since `since`,
serialized for JSON transport. -/
def sync_changes_endpoint (rep : Replica) (since : Int) : List ChangeRecord :=
  (get_changes_since rep since none false).map serialize_change

/-- One replica syncing from another in memory: apply the peer's full export
(`since = 0`) via `apply_changes`, the exchange of §8's convergence property. -/
def syncFrom (dst src : Replica) : Except String (Replica × Nat) :=
  apply_changes dst (get_changes_since src 0 none false)

/-- The per-cell trace of a merge: fold the winner rule over the records of a
batch that concern cell `k`, starting from the local record for `k`. -/
def cellFold (k : String × Val × String) (o : Option ChangeRecord)
    (rs : List ChangeRecord) : Option ChangeRecord :=
  rs.foldl (fun acc r => if keyOf r = k then some (resolve acc r) else acc) o

/-- The records of a batch concerning cell `k`. -/
def filterKey (k : String × Val × String) (rs : List ChangeRecord) : List ChangeRecord :=
  rs.filter (fun r => decide (keyOf r = k))

/-- Ledger well-formedness: `crsql_changes` holds one current record per cell. -/
def distinctKeys (led : List ChangeRecord) : Prop :=
  led.Pairwise (fun a b => keyOf a ≠ keyOf b)

/-- A well-formed stored site id: NULL, or a nonempty byte string. -/
def goodSiteB : Val → Bool
  | Val.vNull => true
  | Val.vBytes b => !b.isEmpty && b.all (fun x => decide (x < 256))
  | _ => false

/-- Whether a value is a blob (Python `bytes`). -/
def isBytes : Val → Bool
  | Val.vBytes _ => true
  | _ => false

/-- Sample schema: the `items` table with its sync-relevant columns. -/
def schema0 : Schema := { tables := [("items", ["content", "title"])] }

/-- Sample replica A: one local write to `items.content` from site `[1]`. -/
def recA : ChangeRecord :=
  { table := "items", pk := Val.vBytes [1], cid := "content", val := Val.vStr "from A"
    col_version := 1, db_version := 1, site_id := Val.vBytes [1], cl := 1, seq := 0 }

/-- Sample replica B's conflicting write to the same cell from site `[2]`. -/
def recB : ChangeRecord :=
  { table := "items", pk := Val.vBytes [1], cid := "content", val := Val.vStr "from B"
    col_version := 1, db_version := 1, site_id := Val.vBytes [2], cl := 1, seq := 0 }

/-- Sample replica A. -/
def repA : Replica := { schema := schema0, siteId := [1], dbVersion := 1, ledger := [recA] }

/-- Sample replica B. -/
def repB : Replica := { schema := schema0, siteId := [2], dbVersion := 1, ledger := [recB] }

/-- A freshly initialized replica with an empty change ledger. -/
def repEmpty : Replica := { schema := schema0, siteId := [1], dbVersion := 0, ledger := [] }

/-- A valid wire record (site id hex-encoded, as on the wire). -/
def goodW : ChangeRecord :=
  { table := "items", pk := Val.vBytes [1], cid := "content", val := Val.vStr "good"
    col_version := 1, db_version := 1, site_id := Val.vStr "02", cl := 1, seq := 0 }

/-- A malformed wire record: its table is not a replicated table. -/
def badW : ChangeRecord :=
  { table := "nope", pk := Val.vBytes [1], cid := "content", val := Val.vStr "bad"
    col_version := 1, db_version := 1, site_id := Val.vStr "02", cl := 1, seq := 0 }

/-- `goodW` as stored after apply: site id decoded back to bytes. -/
def goodApplied : ChangeRecord := { goodW with site_id := Val.vBytes [2] }

/-- A well-formed sync file carrying the single record `goodW`. -/
def fileB : ExportFile :=
  { format := "lestash-crsqlite-v1", site_id := Val.vStr "02", db_version := 1
    since_version := 0, change_count := 1, changes := [goodW] }

/-- The state of `repEmpty` after importing `fileB` once. -/
def repAfterImport : Replica := { repEmpty with ledger := [goodApplied] }

/-- A record whose `pk` and `site_id` are both blobs, as read from
`crsql_changes` before any hex encoding. -/
def c8rec : ChangeRecord :=
  { table := "items", pk := Val.vBytes [171], cid := "content", val := Val.vStr "x"
    col_version := 1, db_version := 1, site_id := Val.vBytes [7], cl := 1, seq := 0 }

/-- An HTTP push record whose `pk` string is not valid hexadecimal. -/
def c10rec : ChangeRecord :=
  { table := "items", pk := Val.vStr "zz", cid := "content", val := Val.vStr "y"
    col_version := 1, db_version := 1, site_id := Val.vStr "02", cl := 1, seq := 0 }

/-- A sync file with an unknown format tag. -/
def fileBadFormat : ExportFile :=
  { format := "other-format", site_id := Val.vNull, db_version := 3
    since_version := 0, change_count := 0, changes := [goodW] }

/-- A record as produced by `get_changes_since`: blob `pk`, hex-text site id. -/
def c8good : ChangeRecord :=
  { table := "items", pk := Val.vBytes [171], cid := "content", val := Val.vStr "x"
    col_version := 1, db_version := 1, site_id := Val.vStr "07", cl := 1, seq := 0 }

/-- The outcome of pushing `[goodW]` to `repEmpty`. -/
def out7 : PushOutcome :=
  { response := { applied := 1, db_version := 0 }, state := repAfterImport, ftsRebuilt := true }

/-- A replica with the same identity as `repA` but an empty change ledger. -/
def repANoLedger : Replica :=
  { schema := schema0, siteId := [1], dbVersion := 1, ledger := [] }

/-! Hex round-trip lemmas. -/

theorem hexDigitChar_spec : ∀ n < 16, hexDigitVal (hexDigitChar n) = some n ∧
    isAsciiSpaceChar (hexDigitChar n) = false := by decide

theorem fromhexChars_cons2 (c1 c2 : Char) (rest : List Char) (hi lo : Nat)
    (hw : isAsciiSpaceChar c1 = false) (h1 : hexDigitVal c1 = some hi)
    (h2 : hexDigitVal c2 = some lo) :
    fromhexChars (c1 :: c2 :: rest) =
      match fromhexChars rest with
      | some bs => some ((16 * hi + lo) :: bs)
      | none => none := by
  rw [fromhexChars, hw]
  simp only [Bool.false_eq_true, if_false]
  rw [h1, h2]

theorem fromhexChars_bytesHexChars (bs : List Nat) (h : ∀ b ∈ bs, b < 256) :
    fromhexChars (bytesHexChars bs) = some bs := by
  induction bs with
  | nil => rfl
  | cons b t ih =>
    have hb : b < 256 := h b (by simp)
    have h1 : b % 256 / 16 < 16 := by omega
    have h2 : b % 16 < 16 := by omega
    obtain ⟨hv1, hw1⟩ := hexDigitChar_spec _ h1
    obtain ⟨hv2, hw2⟩ := hexDigitChar_spec _ h2
    have hrest : fromhexChars (bytesHexChars t) = some t :=
      ih (fun x hx => h x (by simp [hx]))
    have hsh : bytesHexChars (b :: t) =
        hexDigitChar (b % 256 / 16) :: hexDigitChar (b % 16) :: bytesHexChars t := rfl
    rw [hsh, fromhexChars_cons2 _ _ _ _ _ hw1 hv1 hv2, hrest]
    have hval : 16 * (b % 256 / 16) + b % 16 = b := by omega
    simp [hval]

theorem bytesFromhex_bytesHex (bs : List Nat) (h : ∀ b ∈ bs, b < 256) :
    bytesFromhex (bytesHex bs) = some bs :=
  fromhexChars_bytesHexChars bs h

theorem bytesHexChars_ne_nil (b : Nat) (t : List Nat) : bytesHexChars (b :: t) ≠ [] := by
  simp [bytesHexChars, byteHexChars]

theorem siteIdFromWire_siteToWire (v : Val) (h : goodSiteB v = true) :
    siteIdFromWire (siteToWire v) = Except.ok v := by
  cases v with
  | vNull => rfl
  | vInt i => simp [goodSiteB] at h
  | vStr s => simp [goodSiteB] at h
  | vBytes b =>
    cases b with
    | nil => simp [goodSiteB] at h
    | cons x t =>
      have hlt : ∀ y ∈ x :: t, y < 256 := by
        simp only [goodSiteB, Bool.and_eq_true, List.all_eq_true, decide_eq_true_eq] at h
        exact h.2
      have hrt : bytesFromhex (bytesHex (x :: t)) = some (x :: t) :=
        bytesFromhex_bytesHex _ hlt
      have hne : bytesHexChars (x :: t) ≠ [] := bytesHexChars_ne_nil x t
      have hempty : (bytesHex (x :: t)).data.isEmpty = false := by
        show (bytesHexChars (x :: t)).isEmpty = false
        cases hx : bytesHexChars (x :: t) with
        | nil => exact absurd hx hne
        | cons c cs => rfl
      simp [siteToWire, siteIdFromWire, pyTruthy, hempty, hrt]

theorem fromWire_toWire (r : ChangeRecord) (h : goodSiteB r.site_id = true) :
    fromWire (toWire r) = r := by
  cases r with
  | mk table pk cid v cv dv site cl seq =>
    simp only [ChangeRecord.site_id] at h
    simp [fromWire, toWire, siteIdFromWire_siteToWire site h]

/-! The `apply_changes` loop. -/

theorem applyLoop_malformed (s : Schema) :
    ∀ (rs led : List ChangeRecord) (n : Nat),
    (∃ c ∈ rs, s.hasColumn c.table c.cid = false) →
    (∀ c ∈ rs, (siteIdFromWire c.site_id).isOk = true) →
    applyLoop s led rs n = ApplyOutcome.sqlError := by
  intro rs
  induction rs with
  | nil => intro led n hbad _; simp at hbad
  | cons c rest ih =>
    intro led n hbad hsite
    have hc := hsite c (by simp)
    cases hs : siteIdFromWire c.site_id with
    | error e => rw [hs] at hc; simp [Except.isOk, Except.toBool] at hc
    | ok v =>
      rw [applyLoop, hs]
      by_cases hcol : s.hasColumn c.table c.cid = true
      · simp only [hcol, if_true]
        apply ih
        · rcases hbad with ⟨d, hd, hdbad⟩
          rcases List.mem_cons.mp hd with rfl | hd2
          · rw [hcol] at hdbad; cases hdbad
          · exact ⟨d, hd2, hdbad⟩
        · intro d hd; exact hsite d (List.mem_cons_of_mem _ hd)
      · simp only [Bool.not_eq_true] at hcol
        simp [hcol]

theorem applyLoop_committed_count (s : Schema) :
    ∀ (rs led : List ChangeRecord) (n : Nat) (led2 : List ChangeRecord) (m : Nat),
    applyLoop s led rs n = ApplyOutcome.committed led2 m → m = n + rs.length := by
  intro rs
  induction rs with
  | nil =>
    intro led n led2 m h
    rw [applyLoop] at h
    injection h with _ h2
    simp only [List.length_nil]
    omega
  | cons c rest ih =>
    intro led n led2 m h
    rw [applyLoop] at h
    cases hs : siteIdFromWire c.site_id with
    | error e => rw [hs] at h; cases h
    | ok v =>
      rw [hs] at h
      by_cases hcol : s.hasColumn c.table c.cid = true
      · simp only [hcol, if_true] at h
        have := ih (mergeOne led { c with site_id := v }) (n + 1) led2 m h
        simp only [List.length_cons]
        omega
      · simp only [Bool.not_eq_true] at hcol
        simp only [hcol] at h
        cases h

/-! Claim theorems: error handling and codec claims. -/

/-- C5: for every sync file whose top-level `format` field is not exactly
`lestash-crsqlite-v1`, `import_changes_from_file` raises a `ValueError` (a
data error, modelled as `Except.error`) before any record reaches the merge
engine, and the local replica state is unchanged — the outcome does not
depend on the replica at all. -/
theorem import_rejects_unknown_format (rep : Replica) (file : ExportFile)
    (h : file.format ≠ "lestash-crsqlite-v1") :
    import_changes_from_file rep file =
      Except.error ("Unknown export format: " ++ file.format) ∧
    ∀ rep2 : Replica,
      import_changes_from_file rep2 file = import_changes_from_file rep file := by
  have key : ∀ r : Replica, import_changes_from_file r file =
      Except.error ("Unknown export format: " ++ file.format) := by
    intro r
    unfold import_changes_from_file
    rw [if_pos h]
  exact ⟨key rep, fun rep2 => by rw [key rep2, key rep]⟩

/-- Witness for C5 at a concrete replica and file with format tag
`other-format`. -/
theorem import_rejects_unknown_format_witness :
    import_changes_from_file repEmpty fileBadFormat =
      Except.error ("Unknown export format: " ++ fileBadFormat.format) ∧
    ∀ rep2 : Replica, import_changes_from_file rep2 fileBadFormat =
      import_changes_from_file repEmpty fileBadFormat :=
  import_rejects_unknown_format repEmpty fileBadFormat (by decide)

/-- C10: an incoming push record whose `pk` is a string that is not valid
hexadecimal is left unchanged by `_deserialize_change` (the `ValueError` is
suppressed by `contextlib.suppress`), so the record reaches `apply_changes`
exactly as received. -/
theorem deserialize_invalid_hex_pk_unchanged (c : ChangeRecord) (s : String)
    (hpk : c.pk = Val.vStr s) (hhex : bytesFromhex s = none) :
    deserialize_change c = c ∧
    ∀ cs : List ChangeRecord,
      (c :: cs).map deserialize_change = c :: cs.map deserialize_change := by
  have h0 : deserialize_change c =
      match bytesFromhex s with
      | some b => { c with pk := Val.vBytes b }
      | none => c := by
    unfold deserialize_change
    rw [hpk]
  have h1 : deserialize_change c = c := by rw [h0, hhex]
  exact ⟨h1, fun cs => by simp [h1]⟩

/-- Witness for C10 at the concrete pk string `zz`. -/
theorem deserialize_invalid_hex_pk_unchanged_witness :
    deserialize_change c10rec = c10rec ∧
    ∀ cs : List ChangeRecord,
      (c10rec :: cs).map deserialize_change = c10rec :: cs.map deserialize_change :=
  deserialize_invalid_hex_pk_unchanged c10rec "zz" (by decide) (by decide)

/-- Counterexample to C8 as stated: for the record `c8rec`, whose `pk` and
`site_id` are both bytes, `_deserialize_change (_serialize_change c)` is not
`c` — the `site_id` stays a hex string because `_deserialize_change` only
decodes `pk` (the `site_id` decoding is deferred to `apply_changes`). -/
theorem serialize_roundtrip_cex :
    deserialize_change (serialize_change c8rec) ≠ c8rec ∧
    (deserialize_change (serialize_change c8rec)).site_id = Val.vStr (bytesHex [7]) ∧
    (deserialize_change (serialize_change c8rec)).pk = c8rec.pk := by
  refine ⟨by decide, by decide, by decide⟩

/-- C8 amended: for every ChangeRecord whose `pk` is bytes and whose `val` and
`site_id` are not bytes (the shape `get_changes_since` actually produces,
where `site_id` is already hex text), deserializing the serialized wire form
reproduces the record exactly — `pk` survives the hex encode/decode. -/
theorem deserialize_serialize_roundtrip (c : ChangeRecord) (bs : List Nat)
    (hpk : c.pk = Val.vBytes bs) (hbs : ∀ x ∈ bs, x < 256)
    (hval : isBytes c.val = false) (hsite : isBytes c.site_id = false) :
    deserialize_change (serialize_change c) = c := by
  cases c with
  | mk table pk cid v cv dv site cl seq =>
    simp only at hpk hval hsite
    subst hpk
    have hv : hexIfBytes v = v := by
      cases v <;> simp [hexIfBytes, isBytes] at hval ⊢
    have hs : hexIfBytes site = site := by
      cases site <;> simp [hexIfBytes, isBytes] at hsite ⊢
    simp [serialize_change, deserialize_change, hv, hs,
      bytesFromhex_bytesHex bs hbs, hexIfBytes]
    exact ⟨hv, hs⟩

/-- Witness for C8 amended at a concrete record with blob pk `[171]`. -/
theorem deserialize_serialize_roundtrip_witness :
    deserialize_change (serialize_change c8good) = c8good :=
  deserialize_serialize_roundtrip c8good [171] (by decide) (by decide)
    (by decide) (by decide)

/-- Counterexample to C2 as stated: applying the batch `[goodW, badW]` (one
valid record, one with an unknown table) does not skip the malformed record
and apply the valid one — it returns applied count 0 and leaves the replica
unchanged, so the valid record's cell is still absent. -/
theorem apply_changes_no_partial_apply_cex :
    apply_changes repEmpty [goodW, badW] = Except.ok (repEmpty, 0) ∧
    lookupCell repEmpty.ledger (keyOf goodW) = none := ⟨rfl, rfl⟩

/-- C2 amended: a malformed record (unknown table or column) anywhere in a
batch makes `apply_changes` abort and roll back the entire batch, returning
the unchanged replica and applied count 0; valid records in the batch are not
applied and no separate skipped count is reported. -/
theorem apply_changes_malformed_rolls_back (rep : Replica) (changes : List ChangeRecord)
    (hbad : ∃ c ∈ changes, rep.schema.hasColumn c.table c.cid = false)
    (hsite : ∀ c ∈ changes, (siteIdFromWire c.site_id).isOk = true) :
    apply_changes rep changes = Except.ok (rep, 0) := by
  unfold apply_changes
  rw [applyLoop_malformed rep.schema changes rep.ledger 0 hbad hsite]

/-- Witness for C2 amended at the concrete batch `[goodW, badW]`. -/
theorem apply_changes_malformed_rolls_back_witness :
    apply_changes repEmpty [goodW, badW] = Except.ok (repEmpty, 0) :=
  apply_changes_malformed_rolls_back repEmpty [goodW, badW] (by decide) (by decide)

/-- C6: `apply_changes` is all-or-nothing per batch: either the whole batch
commits (and the count equals the batch length), or the `sqlite3.Error`
handler rolls back and returns the replica exactly as it was before the call
with count 0 (making a retry of the same batch start from the same state), or
a `ValueError` escapes before the commit and no state is returned at all. -/
theorem apply_changes_all_or_nothing (rep : Replica) (changes : List ChangeRecord) :
    (∃ rep2, apply_changes rep changes = Except.ok (rep2, changes.length)) ∨
    apply_changes rep changes = Except.ok (rep, 0) ∨
    (∃ e, apply_changes rep changes = Except.error e) := by
  cases h : applyLoop rep.schema rep.ledger changes 0 with
  | committed led2 m =>
    left
    refine ⟨{ rep with ledger := led2 }, ?_⟩
    have hm := applyLoop_committed_count rep.schema changes rep.ledger 0 led2 m h
    unfold apply_changes
    rw [h, hm]
    simp
  | sqlError =>
    right; left
    unfold apply_changes
    rw [h]
  | valueError e =>
    right; right
    refine ⟨e, ?_⟩
    unfold apply_changes
    rw [h]

/-- C7: whenever `POST /sync/changes` answers successfully, the response
carries the applied count and the replica's `db_version`, and
`rebuild_fts_index` was invoked if and only if the applied count is
positive. -/
theorem push_rebuilds_fts_iff_applied (rep : Replica) (request : List ChangeRecord)
    (out : PushOutcome) (h : apply_changes_endpoint rep request = Except.ok out) :
    (out.ftsRebuilt = true ↔ 0 < out.response.applied) ∧
    out.response.db_version = out.state.dbVersion ∧
    apply_changes rep (request.map deserialize_change) =
      Except.ok (out.state, out.response.applied) := by
  simp only [apply_changes_endpoint] at h
  cases happ : apply_changes rep (request.map deserialize_change) with
  | ok p =>
    obtain ⟨rep2, applied⟩ := p
    rw [happ] at h
    injection h with h2
    subst h2
    refine ⟨by simp, rfl, rfl⟩
  | error e =>
    rw [happ] at h
    cases h

/-- Witness for C7 at the concrete push of `[goodW]` to `repEmpty`. -/
theorem push_rebuilds_fts_iff_applied_witness :
    (out7.ftsRebuilt = true ↔ 0 < out7.response.applied) ∧
    out7.response.db_version = out7.state.dbVersion ∧
    apply_changes repEmpty ([goodW].map deserialize_change) =
      Except.ok (out7.state, out7.response.applied) :=
  push_rebuilds_fts_iff_applied repEmpty [goodW] out7 rfl

/-! Ordering lemmas for the export query. -/

theorem rowLe_total (a b : ChangeRecord) : rowLe a b = true ∨ rowLe b a = true := by
  simp only [rowLe, Bool.or_eq_true, Bool.and_eq_true, decide_eq_true_eq]
  omega

theorem rowLe_trans (a b c : ChangeRecord) (h1 : rowLe a b = true)
    (h2 : rowLe b c = true) : rowLe a c = true := by
  simp only [rowLe, Bool.or_eq_true, Bool.and_eq_true, decide_eq_true_eq] at *
  omega

theorem mem_insertSorted (r x : ChangeRecord) :
    ∀ l, x ∈ insertSorted r l ↔ x = r ∨ x ∈ l := by
  intro l
  induction l with
  | nil => simp [insertSorted]
  | cons y ys ih =>
    by_cases h : rowLe r y = true
    · unfold insertSorted
      rw [if_pos h]
      simp [or_comm, or_assoc, or_left_comm]
    · unfold insertSorted
      rw [if_neg h]
      simp [ih, or_comm, or_assoc, or_left_comm]

theorem pairwise_insertSorted (r : ChangeRecord) :
    ∀ l, l.Pairwise (fun a b => rowLe a b = true) →
      (insertSorted r l).Pairwise (fun a b => rowLe a b = true) := by
  intro l
  induction l with
  | nil => intro _; simp [insertSorted]
  | cons y ys ih =>
    intro hp
    rw [List.pairwise_cons] at hp
    obtain ⟨hy, hys⟩ := hp
    by_cases h : rowLe r y = true
    · unfold insertSorted
      rw [if_pos h, List.pairwise_cons]
      refine ⟨?_, ?_⟩
      · intro z hz
        rcases List.mem_cons.mp hz with rfl | hz2
        · exact h
        · exact rowLe_trans r y z h (hy z hz2)
      · rw [List.pairwise_cons]; exact ⟨hy, hys⟩
    · unfold insertSorted
      rw [if_neg h, List.pairwise_cons]
      refine ⟨?_, ih hys⟩
      intro z hz
      rcases (mem_insertSorted r z ys).mp hz with rfl | hz2
      · rcases rowLe_total z y with ht | ht
        · exact absurd ht h
        · exact ht
      · exact hy z hz2

theorem perm_insertSorted (r : ChangeRecord) : ∀ l, (insertSorted r l).Perm (r :: l) := by
  intro l
  induction l with
  | nil => simp [insertSorted]
  | cons y ys ih =>
    by_cases h : rowLe r y = true
    · unfold insertSorted
      rw [if_pos h]
    · unfold insertSorted
      rw [if_neg h]
      exact (ih.cons y).trans (List.Perm.swap r y ys)

theorem sortChanges_perm : ∀ l, (sortChanges l).Perm l := by
  intro l
  induction l with
  | nil => simp [sortChanges]
  | cons x xs ih =>
    show (insertSorted x (sortChanges xs)).Perm (x :: xs)
    exact (perm_insertSorted x _).trans (ih.cons x)

theorem sortChanges_pairwise : ∀ l, (sortChanges l).Pairwise (fun a b => rowLe a b = true) := by
  intro l
  induction l with
  | nil => simp [sortChanges]
  | cons x xs ih => exact pairwise_insertSorted x _ ih

theorem mem_sortChanges (x : ChangeRecord) (l : List ChangeRecord) :
    x ∈ sortChanges l ↔ x ∈ l :=
  (sortChanges_perm l).mem_iff

/-- C4: `get_changes_since` returns exactly the ledger records with
`db_version` strictly greater than `V` (as a permutation of that filter, in
wire form), ordered by `(db_version, seq)`; no returned record has
`db_version ≤ V`, and a pull at the replica's current `db_version` — also
through the `GET /sync/changes` endpoint — returns the empty list. -/
theorem get_changes_since_watermark (rep : Replica) (V : Int)
    (hcap : ∀ r ∈ rep.ledger, r.db_version ≤ rep.dbVersion) :
    (∀ r ∈ get_changes_since rep V none false, V < r.db_version) ∧
    (get_changes_since rep V none false).Pairwise (fun a b => rowLe a b = true) ∧
    (get_changes_since rep V none false).Perm
      ((rep.ledger.filter (fun r => decide (V < r.db_version))).map toWire) ∧
    get_changes_since rep rep.dbVersion none false = [] ∧
    sync_changes_endpoint rep rep.dbVersion = [] := by
  have hdef : get_changes_since rep V none false =
      (sortChanges (rep.ledger.filter (fun r => decide (V < r.db_version)))).map toWire := rfl
  have hnil : rep.ledger.filter (fun r => decide (rep.dbVersion < r.db_version)) = [] := by
    rw [List.filter_eq_nil_iff]
    intro a ha
    simp only [decide_eq_true_eq]
    exact not_lt.mpr (hcap a ha)
  have hempty : get_changes_since rep rep.dbVersion none false = [] := by
    show (sortChanges (rep.ledger.filter
      (fun r => decide (rep.dbVersion < r.db_version)))).map toWire = []
    rw [hnil]
    rfl
  refine ⟨?_, ?_, ?_, hempty, ?_⟩
  · intro r hr
    rw [hdef] at hr
    obtain ⟨r0, hr0, rfl⟩ := List.mem_map.mp hr
    have hm := (mem_sortChanges r0 _).mp hr0
    have hf := List.mem_filter.mp hm
    have : V < r0.db_version := by simpa using hf.2
    exact this
  · rw [hdef]
    exact List.Pairwise.map toWire (fun a b h => h) (sortChanges_pairwise _)
  · rw [hdef]
    exact (sortChanges_perm _).map toWire
  · show (get_changes_since rep rep.dbVersion none false).map serialize_change = []
    rw [hempty]
    rfl

/-- Witness for C4 at `repA` with watermark 0. -/
theorem get_changes_since_watermark_witness :
    (∀ r ∈ get_changes_since repA 0 none false, (0:Int) < r.db_version) ∧
    (get_changes_since repA 0 none false).Pairwise (fun a b => rowLe a b = true) ∧
    (get_changes_since repA 0 none false).Perm
      ((repA.ledger.filter (fun r => decide ((0:Int) < r.db_version))).map toWire) ∧
    get_changes_since repA repA.dbVersion none false = [] ∧
    sync_changes_endpoint repA repA.dbVersion = [] :=
  get_changes_since_watermark repA 0 (by decide)

/-- C9: when the change-ledger query raises a database error,
`get_changes_since` swallows it and returns the empty list, so
`export_changes_to_file` still succeeds and writes a well-formed file with
`change_count` 0 — byte-for-byte the file a replica with no new changes (same
site id and db_version) would produce. -/
theorem get_changes_error_empty_export (rep : Replica) (since : Int)
    (ex : Option (List Nat)) (rep2 : Replica)
    (h2 : ∀ r ∈ rep2.ledger, r.db_version ≤ since)
    (hsite : rep2.siteId = rep.siteId) (hver : rep2.dbVersion = rep.dbVersion) :
    get_changes_since rep since ex true = [] ∧
    (export_changes_to_file rep since true).change_count = 0 ∧
    (export_changes_to_file rep since true).changes = [] ∧
    (export_changes_to_file rep since true).format = "lestash-crsqlite-v1" ∧
    export_changes_to_file rep2 since false = export_changes_to_file rep since true := by
  have hq : get_changes_since rep since ex true = [] := by
    unfold get_changes_since
    rw [if_pos rfl]
  have hnil : rep2.ledger.filter (fun r => decide (since < r.db_version)) = [] := by
    rw [List.filter_eq_nil_iff]
    intro a ha
    simp only [decide_eq_true_eq]
    exact not_lt.mpr (h2 a ha)
  have hq2 : get_changes_since rep2 since none false = [] := by
    show (sortChanges (rep2.ledger.filter
      (fun r => decide (since < r.db_version)))).map toWire = []
    rw [hnil]
    rfl
  have hq3 : get_changes_since rep since none true = [] := by
    unfold get_changes_since
    rw [if_pos rfl]
  refine ⟨hq, ?_, ?_, ?_, ?_⟩
  · simp [export_changes_to_file, hq3]
  · simp [export_changes_to_file, hq3]
  · rfl
  · simp [export_changes_to_file, hq2, hq3, hsite, hver]

/-- Witness for C9: `repA` with a failing query produces the same export file
as the genuinely changeless `repANoLedger`. -/
theorem get_changes_error_empty_export_witness :
    get_changes_since repA 0 none true = [] ∧
    (export_changes_to_file repA 0 true).change_count = 0 ∧
    (export_changes_to_file repA 0 true).changes = [] ∧
    (export_changes_to_file repA 0 true).format = "lestash-crsqlite-v1" ∧
    export_changes_to_file repANoLedger 0 false = export_changes_to_file repA 0 true :=
  get_changes_error_empty_export repA 0 none repANoLedger (by decide) (by decide) (by decide)

/-! The winner rule is a strict linear order on conflict keys. -/

theorem lexLtBytes_irrefl : ∀ a, lexLtBytes a a = false := by
  intro a
  induction a with
  | nil => rfl
  | cons x t ih => simp [lexLtBytes, lt_self_iff_false, ih]

theorem lexLtBytes_asymm : ∀ a b, lexLtBytes a b = true → lexLtBytes b a = false := by
  intro a
  induction a with
  | nil =>
    intro b h
    cases b with
    | nil => simp [lexLtBytes] at h
    | cons y bs => rfl
  | cons x t ih =>
    intro b h
    cases b with
    | nil => simp [lexLtBytes] at h
    | cons y bs =>
      simp only [lexLtBytes] at h ⊢
      by_cases h1 : x < y
      · have h2 : ¬ y < x := by omega
        simp [h1, h2]
      · by_cases h2 : y < x
        · simp [h1, h2] at h
        · simp only [h1, h2, if_false] at h ⊢
          exact ih bs h

theorem lexLtBytes_trans : ∀ a b c, lexLtBytes a b = true → lexLtBytes b c = true →
    lexLtBytes a c = true := by
  intro a
  induction a with
  | nil =>
    intro b c h1 h2
    cases b with
    | nil => simp [lexLtBytes] at h1
    | cons y bs =>
      cases c with
      | nil => simp [lexLtBytes] at h2
      | cons z cs => rfl
  | cons x t ih =>
    intro b c h1 h2
    cases b with
    | nil => simp [lexLtBytes] at h1
    | cons y bs =>
      cases c with
      | nil => simp [lexLtBytes] at h2
      | cons z cs =>
        simp only [lexLtBytes] at h1 h2 ⊢
        by_cases hxy : x < y
        · by_cases hyz : y < z
          · simp [show x < z by omega]
          · by_cases hzy : z < y
            · simp [hyz, hzy] at h2
            · simp [show x < z by omega]
        · by_cases hyx : y < x
          · simp [hxy, hyx] at h1
          · have hxyeq : x = y := by omega
            simp only [hxy, hyx, if_false] at h1
            by_cases hyz : y < z
            · simp [show x < z by omega]
            · by_cases hzy : z < y
              · simp [hyz, hzy] at h2
              · simp only [hyz, hzy, if_false] at h2
                have hyzeq : y = z := by omega
                simp only [show ¬ x < z by omega, show ¬ z < x by omega, if_false]
                exact ih bs cs h1 h2

theorem lexLtBytes_connex : ∀ a b, lexLtBytes a b = false → lexLtBytes b a = false →
    a = b := by
  intro a
  induction a with
  | nil =>
    intro b h1 _
    cases b with
    | nil => rfl
    | cons y bs => simp [lexLtBytes] at h1
  | cons x t ih =>
    intro b h1 h2
    cases b with
    | nil => simp [lexLtBytes] at h2
    | cons y bs =>
      simp only [lexLtBytes] at h1 h2
      by_cases hxy : x < y
      · simp [hxy] at h1
      · by_cases hyx : y < x
        · simp [hyx] at h2
        · have hxyeq : x = y := by omega
          subst hxyeq
          simp only [lt_self_iff_false, if_false] at h1 h2
          rw [ih bs h1 h2]

theorem verLt_irrefl (a : Int × List Nat) : verLt a a = false := by
  simp [verLt, lt_self_iff_false, lexLtBytes_irrefl]

theorem verLt_asymm (a b : Int × List Nat) (h : verLt a b = true) : verLt b a = false := by
  simp only [verLt, Bool.or_eq_true, Bool.and_eq_true, decide_eq_true_eq] at h
  rcases h with h | ⟨heq, hlex⟩
  · have h1 : ¬ b.1 < a.1 := by omega
    have h2 : ¬ b.1 = a.1 := by omega
    simp [verLt, h1, h2]
  · have h1 : ¬ b.1 < a.1 := by omega
    simp [verLt, h1, heq.symm, lexLtBytes_asymm _ _ hlex]

theorem verLt_trans (a b c : Int × List Nat) (h1 : verLt a b = true)
    (h2 : verLt b c = true) : verLt a c = true := by
  simp only [verLt, Bool.or_eq_true, Bool.and_eq_true, decide_eq_true_eq] at h1 h2 ⊢
  rcases h1 with h1 | ⟨h1e, h1l⟩ <;> rcases h2 with h2 | ⟨h2e, h2l⟩
  · left; omega
  · left; omega
  · left; omega
  · right
    exact ⟨by omega, lexLtBytes_trans _ _ _ h1l h2l⟩

theorem verLt_connex (a b : Int × List Nat) (h1 : verLt a b = false)
    (h2 : verLt b a = false) : a = b := by
  obtain ⟨a1, a2⟩ := a
  obtain ⟨b1, b2⟩ := b
  by_cases hlt : a1 < b1
  · simp [verLt, hlt] at h1
  · by_cases hgt : b1 < a1
    · simp [verLt, hgt] at h2
    · have heq : a1 = b1 := by omega
      by_cases hl1 : lexLtBytes a2 b2 = true
      · simp [verLt, heq, hl1] at h1
      · by_cases hl2 : lexLtBytes b2 a2 = true
        · simp [verLt, heq.symm, hl2] at h2
        · have h2eq := lexLtBytes_connex a2 b2
            (by simpa using hl1) (by simpa using hl2)
          rw [heq, h2eq]

theorem verLt_le_trans (a b c : Int × List Nat) (h1 : verLt b a = false)
    (h2 : verLt c b = false) : verLt c a = false := by
  cases h3 : verLt c a with
  | false => rfl
  | true =>
    exfalso
    by_cases h4 : verLt a b = true
    · have := verLt_trans c a b h3 h4
      rw [this] at h2
      cases h2
    · have hab : a = b := verLt_connex a b (by simpa using h4) h1
      rw [hab] at h3
      rw [h3] at h2
      cases h2

theorem wins_irrefl (r : ChangeRecord) : wins r r = false := verLt_irrefl _

/-! Per-cell behaviour of the modelled merge. -/

theorem resolve_not_wins (o : Option ChangeRecord) (r : ChangeRecord) :
    wins r (resolve o r) = false := by
  cases o with
  | none => exact wins_irrefl r
  | some a =>
    unfold resolve
    by_cases h : wins r a = true
    · simp [h, wins_irrefl]
    · simp [h]

theorem resolve_preserves_not_wins (x acc r : ChangeRecord)
    (h : wins x acc = false) : wins x (resolve (some acc) r) = false := by
  unfold resolve
  by_cases hr : wins r acc = true
  · simp only [hr, if_true]
    unfold wins at *
    exact verLt_le_trans _ _ _ h (verLt_asymm _ _ hr)
  · simp [hr, h]

theorem find_map_merge_same (r : ChangeRecord) (k : String × Val × String)
    (hk : keyOf r = k) :
    ∀ led : List ChangeRecord,
      List.find? (fun x => decide (keyOf x = k))
        (led.map (fun l => if keyOf l = keyOf r then (if wins r l then r else l) else l)) =
      (List.find? (fun x => decide (keyOf x = k)) led).map
        (fun l => if wins r l then r else l) := by
  intro led
  induction led with
  | nil => rfl
  | cons l0 t ih =>
    by_cases h0 : keyOf l0 = k
    · have hlr : keyOf l0 = keyOf r := by rw [h0, hk]
      have hhead : (if keyOf l0 = keyOf r then (if wins r l0 then r else l0) else l0) =
          (if wins r l0 then r else l0) := if_pos hlr
      have hkey2 : keyOf (if wins r l0 then r else l0) = k := by
        by_cases hw : wins r l0 = true
        · rw [if_pos hw, hk]
        · rw [if_neg hw, h0]
      rw [List.map_cons, hhead,
        List.find?_cons_of_pos _ (by simp [hkey2]),
        List.find?_cons_of_pos _ (by simp [h0])]
      rfl
    · by_cases h1 : keyOf l0 = keyOf r
      · exact absurd (h1.trans hk) h0
      · have hhead : (if keyOf l0 = keyOf r then (if wins r l0 then r else l0) else l0) = l0 :=
          if_neg h1
        rw [List.map_cons, hhead,
          List.find?_cons_of_neg _ (by simp [h0]),
          List.find?_cons_of_neg _ (by simp [h0])]
        exact ih

theorem find_map_merge_ne (r : ChangeRecord) (k : String × Val × String)
    (hk : keyOf r ≠ k) :
    ∀ led : List ChangeRecord,
      List.find? (fun x => decide (keyOf x = k))
        (led.map (fun l => if keyOf l = keyOf r then (if wins r l then r else l) else l)) =
      List.find? (fun x => decide (keyOf x = k)) led := by
  intro led
  induction led with
  | nil => rfl
  | cons l0 t ih =>
    by_cases h1 : keyOf l0 = keyOf r
    · have h0 : ¬ keyOf l0 = k := fun hc => hk (h1 ▸ hc)
      have hhead : (if keyOf l0 = keyOf r then (if wins r l0 then r else l0) else l0) =
          (if wins r l0 then r else l0) := if_pos h1
      have hkey2 : ¬ keyOf (if wins r l0 then r else l0) = k := by
        by_cases hw : wins r l0 = true
        · rw [if_pos hw]; exact hk
        · rw [if_neg hw]; exact h0
      rw [List.map_cons, hhead,
        List.find?_cons_of_neg _ (by simp [hkey2]),
        List.find?_cons_of_neg _ (by simp [h0])]
      exact ih
    · have hhead : (if keyOf l0 = keyOf r then (if wins r l0 then r else l0) else l0) = l0 :=
        if_neg h1
      by_cases h0 : keyOf l0 = k
      · rw [List.map_cons, hhead,
          List.find?_cons_of_pos _ (by simp [h0]),
          List.find?_cons_of_pos _ (by simp [h0])]
      · rw [List.map_cons, hhead,
          List.find?_cons_of_neg _ (by simp [h0]),
          List.find?_cons_of_neg _ (by simp [h0])]
        exact ih

theorem lookupCell_mergeOne (led : List ChangeRecord) (r : ChangeRecord)
    (k : String × Val × String) :
    lookupCell (mergeOne led r) k =
      if keyOf r = k then some (resolve (lookupCell led k) r) else lookupCell led k := by
  unfold mergeOne
  by_cases hany : (led.any fun l => decide (keyOf l = keyOf r)) = true
  · rw [if_pos hany]
    by_cases hk : keyOf r = k
    · rw [if_pos hk]
      show List.find? _ _ = _
      rw [find_map_merge_same r k hk led]
      obtain ⟨l0, hl0, hpl⟩ := List.any_eq_true.mp hany
      have hsome : (List.find? (fun x => decide (keyOf x = k)) led).isSome := by
        rw [List.find?_isSome]
        refine ⟨l0, hl0, ?_⟩
        simp only [decide_eq_true_eq] at hpl ⊢
        rw [hpl, hk]
      cases hfind : List.find? (fun x => decide (keyOf x = k)) led with
      | none => rw [hfind] at hsome; cases hsome
      | some a =>
        show some (if wins r a then r else a) = some (resolve (lookupCell led k) r)
        unfold lookupCell
        rw [hfind]
        rfl
    · rw [if_neg hk]
      show List.find? _ _ = _
      rw [find_map_merge_ne r k hk led]
      rfl
  · rw [if_neg hany]
    by_cases hk : keyOf r = k
    · rw [if_pos hk]
      have hnone : List.find? (fun x => decide (keyOf x = k)) led = none := by
        rw [List.find?_eq_none]
        intro x hx
        simp only [decide_eq_true_eq]
        intro hc
        apply hany
        exact List.any_eq_true.mpr ⟨x, hx, by simp [hc, hk.symm]⟩
      show List.find? _ (led ++ [r]) = _
      rw [List.find?_append, hnone]
      unfold lookupCell
      rw [hnone]
      simp [List.find?, hk]
      rfl
    · rw [if_neg hk]
      show List.find? _ (led ++ [r]) = _
      rw [List.find?_append]
      unfold lookupCell
      cases hfind : List.find? (fun x => decide (keyOf x = k)) led with
      | none => simp [List.find?, hk]
      | some a => rfl

theorem lookupCell_foldl (rs : List ChangeRecord) :
    ∀ (led : List ChangeRecord) (k : String × Val × String),
      lookupCell (List.foldl mergeOne led rs) k = cellFold k (lookupCell led k) rs := by
  induction rs with
  | nil => intro led k; rfl
  | cons r rest ih =>
    intro led k
    show lookupCell (List.foldl mergeOne (mergeOne led r) rest) k = _
    rw [ih, lookupCell_mergeOne]
    rfl

theorem cellFold_step (k : String × Val × String) (o : Option ChangeRecord)
    (r : ChangeRecord) (t : List ChangeRecord) :
    cellFold k o (r :: t) = cellFold k (if keyOf r = k then some (resolve o r) else o) t := rfl

theorem cellFold_filterKey (k : String × Val × String) :
    ∀ (rs : List ChangeRecord) (o : Option ChangeRecord),
      cellFold k o rs = cellFold k o (filterKey k rs) := by
  intro rs
  induction rs with
  | nil => intro o; rfl
  | cons r t ih =>
    intro o
    by_cases h : keyOf r = k
    · have hf : filterKey k (r :: t) = r :: filterKey k t := by
        simp [filterKey, List.filter_cons, h]
      rw [cellFold_step, if_pos h, hf, cellFold_step, if_pos h]
      exact ih _
    · have hf : filterKey k (r :: t) = filterKey k t := by
        simp [filterKey, List.filter_cons, h]
      rw [cellFold_step, if_neg h, hf]
      exact ih o

theorem cellFold_some (k : String × Val × String) :
    ∀ (rs : List ChangeRecord) (a : ChangeRecord),
      ∃ w, cellFold k (some a) rs = some w := by
  intro rs
  induction rs with
  | nil => intro a; exact ⟨a, rfl⟩
  | cons r t ih =>
    intro a
    by_cases h : keyOf r = k
    · rw [cellFold_step, if_pos h]
      exact ih _
    · rw [cellFold_step, if_neg h]
      exact ih a

theorem cellFold_isSome_of_mem (k : String × Val × String) :
    ∀ (rs : List ChangeRecord) (o : Option ChangeRecord) (r : ChangeRecord),
      r ∈ rs → keyOf r = k → ∃ w, cellFold k o rs = some w := by
  intro rs
  induction rs with
  | nil => intro o r hr _; cases hr
  | cons r0 t ih =>
    intro o r hr hk
    rcases List.mem_cons.mp hr with rfl | hr2
    · rw [cellFold_step, if_pos hk]
      exact cellFold_some k t _
    · by_cases h0 : keyOf r0 = k
      · rw [cellFold_step, if_pos h0]
        exact cellFold_some k t _
      · rw [cellFold_step, if_neg h0]
        exact ih o r hr2 hk

theorem cellFold_not_wins_acc (k : String × Val × String) :
    ∀ (rs : List ChangeRecord) (a x w : ChangeRecord),
      cellFold k (some a) rs = some w → wins x a = false → wins x w = false := by
  intro rs
  induction rs with
  | nil =>
    intro a x w h hx
    injection h with h2
    rw [← h2]
    exact hx
  | cons r t ih =>
    intro a x w h hx
    by_cases hk : keyOf r = k
    · rw [cellFold_step, if_pos hk] at h
      exact ih _ x w h (resolve_preserves_not_wins x a r hx)
    · rw [cellFold_step, if_neg hk] at h
      exact ih a x w h hx

theorem cellFold_no_win (k : String × Val × String) :
    ∀ (rs : List ChangeRecord) (o : Option ChangeRecord) (w : ChangeRecord),
      cellFold k o rs = some w →
      ∀ r ∈ rs, keyOf r = k → wins r w = false := by
  intro rs
  induction rs with
  | nil => intro o w _ r hr _; cases hr
  | cons r0 t ih =>
    intro o w h r hr hk
    rcases List.mem_cons.mp hr with rfl | hr2
    · rw [cellFold_step, if_pos hk] at h
      exact cellFold_not_wins_acc k t _ r w h (resolve_not_wins o r)
    · by_cases h0 : keyOf r0 = k
      · rw [cellFold_step, if_pos h0] at h
        exact ih _ w h r hr2 hk
      · rw [cellFold_step, if_neg h0] at h
        exact ih o w h r hr2 hk

/-! Distinct cell keys: preservation and uniqueness. -/

theorem distinctKeys_mergeOne (led : List ChangeRecord) (r : ChangeRecord)
    (h : distinctKeys led) : distinctKeys (mergeOne led r) := by
  unfold mergeOne
  by_cases hany : (led.any fun l => decide (keyOf l = keyOf r)) = true
  · rw [if_pos hany]
    have hkey : ∀ l : ChangeRecord,
        keyOf (if keyOf l = keyOf r then (if wins r l then r else l) else l) = keyOf l := by
      intro l
      by_cases h1 : keyOf l = keyOf r
      · rw [if_pos h1]
        by_cases h2 : wins r l = true
        · rw [if_pos h2, h1]
        · rw [if_neg h2]
      · rw [if_neg h1]
    rw [distinctKeys, List.pairwise_map]
    apply List.Pairwise.imp ?_ h
    intro a b hab
    rw [hkey a, hkey b]
    exact hab
  · rw [if_neg hany]
    rw [distinctKeys, List.pairwise_append]
    refine ⟨h, by simp [distinctKeys], ?_⟩
    intro a ha b hb
    have hb2 : b = r := by simpa using hb
    subst hb2
    intro hcontra
    exact hany (List.any_eq_true.mpr ⟨a, ha, by simp [hcontra]⟩)

theorem distinctKeys_foldl (rs : List ChangeRecord) :
    ∀ led : List ChangeRecord, distinctKeys led →
      distinctKeys (List.foldl mergeOne led rs) := by
  induction rs with
  | nil => intro led h; exact h
  | cons r t ih =>
    intro led h
    exact ih (mergeOne led r) (distinctKeys_mergeOne led r h)

theorem lookupCell_of_mem (led : List ChangeRecord) (h : distinctKeys led)
    (x : ChangeRecord) (hx : x ∈ led) (k : String × Val × String) (hk : keyOf x = k) :
    lookupCell led k = some x := by
  induction led with
  | nil => cases hx
  | cons l t ih =>
    rw [distinctKeys, List.pairwise_cons] at h
    obtain ⟨hl, ht⟩ := h
    rcases List.mem_cons.mp hx with rfl | hx2
    · unfold lookupCell
      rw [List.find?_cons_of_pos _ (by simp [hk])]
    · have hne : ¬ keyOf l = k := by
        intro hc
        exact hl x hx2 (hc.trans hk.symm)
      unfold lookupCell
      rw [List.find?_cons_of_neg _ (by simp [hne])]
      exact ih ht hx2

theorem filterKey_length_le_one (k : String × Val × String) :
    ∀ led : List ChangeRecord, distinctKeys led → (filterKey k led).length ≤ 1 := by
  intro led
  induction led with
  | nil => intro _; simp [filterKey]
  | cons l t ih =>
    intro h
    rw [distinctKeys, List.pairwise_cons] at h
    obtain ⟨hl, ht⟩ := h
    by_cases hk : keyOf l = k
    · have h1 : filterKey k (l :: t) = l :: filterKey k t := by
        simp [filterKey, List.filter_cons, hk]
      have h2 : filterKey k t = [] := by
        rw [filterKey, List.filter_eq_nil_iff]
        intro a ha
        simp only [decide_eq_true_eq]
        intro hc
        exact hl a ha (hk.trans hc.symm)
      rw [h1, h2]
      simp
    · have h1 : filterKey k (l :: t) = filterKey k t := by
        simp [filterKey, List.filter_cons, hk]
      rw [h1]
      exact ih ht

theorem perm_length_le_one_eq {α : Type} {l l2 : List α}
    (h : l.Perm l2) (hl : l2.length ≤ 1) : l = l2 := by
  cases l2 with
  | nil => exact h.eq_nil
  | cons a t =>
    cases t with
    | nil => exact List.perm_singleton.mp h
    | cons b u => simp at hl

theorem lookupCell_eq_head_filterKey (k : String × Val × String) :
    ∀ led : List ChangeRecord, lookupCell led k = (filterKey k led).head? := by
  intro led
  induction led with
  | nil => rfl
  | cons l t ih =>
    by_cases h : keyOf l = k
    · unfold lookupCell
      rw [List.find?_cons_of_pos _ (by simp [h])]
      have : filterKey k (l :: t) = l :: filterKey k t := by
        simp [filterKey, List.filter_cons, h]
      rw [this]
      rfl
    · unfold lookupCell
      rw [List.find?_cons_of_neg _ (by simp [h])]
      have : filterKey k (l :: t) = filterKey k t := by
        simp [filterKey, List.filter_cons, h]
      rw [this]
      exact ih

theorem mergeOne_no_change (led : List ChangeRecord) (r : ChangeRecord)
    (hmem : ∃ l ∈ led, keyOf l = keyOf r)
    (hlose : ∀ l ∈ led, keyOf l = keyOf r → wins r l = false) :
    mergeOne led r = led := by
  unfold mergeOne
  have hany : (led.any fun l => decide (keyOf l = keyOf r)) = true := by
    obtain ⟨l, hl, hlk⟩ := hmem
    exact List.any_eq_true.mpr ⟨l, hl, by simp [hlk]⟩
  rw [if_pos hany]
  have hid : ∀ l ∈ led,
      (if keyOf l = keyOf r then (if wins r l then r else l) else l) = l := by
    intro l hl
    by_cases h1 : keyOf l = keyOf r
    · rw [if_pos h1, if_neg]
      simp [hlose l hl h1]
    · rw [if_neg h1]
  calc led.map (fun l => if keyOf l = keyOf r then (if wins r l then r else l) else l)
      = led.map id := List.map_congr_left hid
    _ = led := List.map_id led

theorem foldl_mergeOne_id :
    ∀ (rs led1 : List ChangeRecord),
      (∀ r ∈ rs, (∃ l ∈ led1, keyOf l = keyOf r) ∧
        (∀ l ∈ led1, keyOf l = keyOf r → wins r l = false)) →
      List.foldl mergeOne led1 rs = led1 := by
  intro rs
  induction rs with
  | nil => intro led1 _; rfl
  | cons r t ih =>
    intro led1 hcond
    have h0 := hcond r (by simp)
    have hm : mergeOne led1 r = led1 := mergeOne_no_change led1 r h0.1 h0.2
    show List.foldl mergeOne (mergeOne led1 r) t = led1
    rw [hm]
    exact ih led1 (fun r2 hr2 => hcond r2 (List.mem_cons_of_mem _ hr2))

theorem applyLoop_commits (s : Schema) :
    ∀ (rs led : List ChangeRecord) (n : Nat),
      (∀ c ∈ rs, (siteIdFromWire c.site_id).isOk = true) →
      (∀ c ∈ rs, s.hasColumn c.table c.cid = true) →
      applyLoop s led rs n =
        ApplyOutcome.committed (List.foldl mergeOne led (rs.map fromWire)) (n + rs.length) := by
  intro rs
  induction rs with
  | nil => intro led n _ _; simp [applyLoop]
  | cons c t ih =>
    intro led n hsite hcol
    have hc := hsite c (by simp)
    cases hs : siteIdFromWire c.site_id with
    | error e => rw [hs] at hc; simp [Except.isOk, Except.toBool] at hc
    | ok v =>
      rw [applyLoop, hs]
      have hcolc := hcol c (by simp)
      simp only [hcolc, if_true]
      have hfw : fromWire c = { c with site_id := v } := by
        unfold fromWire
        rw [hs]
      rw [ih (mergeOne led { c with site_id := v }) (n + 1)
        (fun d hd => hsite d (List.mem_cons_of_mem _ hd))
        (fun d hd => hcol d (List.mem_cons_of_mem _ hd))]
      simp only [List.map_cons, List.foldl_cons, hfw, List.length_cons]
      congr 1
      omega

/-- Counterexample to C3 as stated: importing `fileB` into the fresh replica
`repEmpty` applies its one record; importing the identical file a second time
leaves the state unchanged but reports `changes_applied = 1`, not 0 — the
count reports records processed, not records that actually won. -/
theorem second_import_count_cex :
    import_changes_from_file repEmpty fileB =
      Except.ok (repAfterImport,
        { source_site_id := Val.vStr "02", source_db_version := 1,
          changes_received := 1, changes_applied := 1 }) ∧
    import_changes_from_file repAfterImport fileB =
      Except.ok (repAfterImport,
        { source_site_id := Val.vStr "02", source_db_version := 1,
          changes_received := 1, changes_applied := 1 }) := ⟨rfl, rfl⟩

/-- C3 amended: importing the same well-formed WireChangeSet twice yields the
same final replica state as importing it once (state idempotence holds), but
the second import's `applied_count` equals the number of records received —
`apply_changes` counts every record it inserts, including ones superseded by
the already-present winning version. -/
theorem import_idempotent_count_received (rep : Replica) (file : ExportFile)
    (hfmt : file.format = "lestash-crsqlite-v1")
    (hwf : distinctKeys rep.ledger)
    (hsite : ∀ c ∈ file.changes, (siteIdFromWire c.site_id).isOk = true)
    (hcol : ∀ c ∈ file.changes, rep.schema.hasColumn c.table c.cid = true) :
    ∃ rep1 res1 res2,
      import_changes_from_file rep file = Except.ok (rep1, res1) ∧
      import_changes_from_file rep1 file = Except.ok (rep1, res2) ∧
      res1.changes_applied = file.changes.length ∧
      res2.changes_applied = file.changes.length ∧
      res1.changes_received = file.changes.length ∧
      res2.changes_received = file.changes.length := by
  have hfmt2 : ¬ file.format ≠ "lestash-crsqlite-v1" := by simp [hfmt]
  have happly1 : apply_changes rep file.changes =
      Except.ok (({ rep with ledger := List.foldl mergeOne rep.ledger (file.changes.map fromWire) } : Replica), file.changes.length) := by
    unfold apply_changes
    rw [applyLoop_commits rep.schema file.changes rep.ledger 0 hsite hcol]
    simp
  have hwf1 : distinctKeys (List.foldl mergeOne rep.ledger (file.changes.map fromWire)) :=
    distinctKeys_foldl (file.changes.map fromWire) rep.ledger hwf
  have hcond : ∀ w ∈ file.changes.map fromWire,
      (∃ l ∈ List.foldl mergeOne rep.ledger (file.changes.map fromWire),
        keyOf l = keyOf w) ∧
      (∀ l ∈ List.foldl mergeOne rep.ledger (file.changes.map fromWire),
        keyOf l = keyOf w → wins w l = false) := by
    intro w hw
    have hlook : lookupCell (List.foldl mergeOne rep.ledger (file.changes.map fromWire))
        (keyOf w) =
        cellFold (keyOf w) (lookupCell rep.ledger (keyOf w)) (file.changes.map fromWire) :=
      lookupCell_foldl (file.changes.map fromWire) rep.ledger (keyOf w)
    obtain ⟨w2, hw2⟩ := cellFold_isSome_of_mem (keyOf w) (file.changes.map fromWire)
      (lookupCell rep.ledger (keyOf w)) w hw rfl
    rw [hw2] at hlook
    have hmemw2 : w2 ∈ List.foldl mergeOne rep.ledger (file.changes.map fromWire) :=
      List.mem_of_find?_eq_some hlook
    have hkeyw2 : keyOf w2 = keyOf w := by
      have := List.find?_some hlook
      simpa using this
    have hnowin : wins w w2 = false :=
      cellFold_no_win (keyOf w) (file.changes.map fromWire) _ w2 hw2 w hw rfl
    refine ⟨⟨w2, hmemw2, hkeyw2⟩, ?_⟩
    intro l hl hlk
    have hluniq := lookupCell_of_mem _ hwf1 l hl (keyOf w) hlk
    rw [hluniq] at hlook
    injection hlook with h2
    rw [h2]
    exact hnowin
  have hsecond : List.foldl mergeOne
      (List.foldl mergeOne rep.ledger (file.changes.map fromWire))
      (file.changes.map fromWire) =
      List.foldl mergeOne rep.ledger (file.changes.map fromWire) :=
    foldl_mergeOne_id (file.changes.map fromWire) _ hcond
  have happly2 : apply_changes
      { rep with ledger := List.foldl mergeOne rep.ledger (file.changes.map fromWire) }
      file.changes =
      Except.ok (({ rep with ledger := List.foldl mergeOne rep.ledger (file.changes.map fromWire) } : Replica), file.changes.length) := by
    unfold apply_changes
    have hloop2 : applyLoop rep.schema
        (List.foldl mergeOne rep.ledger (file.changes.map fromWire))
        file.changes 0 =
        ApplyOutcome.committed
          (List.foldl mergeOne rep.ledger (file.changes.map fromWire))
          (0 + file.changes.length) := by
      have := applyLoop_commits rep.schema file.changes
        (List.foldl mergeOne rep.ledger (file.changes.map fromWire)) 0 hsite hcol
      rw [hsecond] at this
      exact this
    rw [hloop2]
    simp
  refine ⟨{ rep with ledger := List.foldl mergeOne rep.ledger (file.changes.map fromWire) },
    { source_site_id := file.site_id, source_db_version := file.db_version,
      changes_received := file.changes.length, changes_applied := file.changes.length },
    { source_site_id := file.site_id, source_db_version := file.db_version,
      changes_received := file.changes.length, changes_applied := file.changes.length },
    ?_, ?_, rfl, rfl, rfl, rfl⟩
  · unfold import_changes_from_file
    rw [if_neg hfmt2, happly1]
  · unfold import_changes_from_file
    rw [if_neg hfmt2, happly2]

/-- Witness for C3 amended at `repEmpty` importing `fileB` twice. -/
theorem import_idempotent_witness :
    ∃ rep1 res1 res2,
      import_changes_from_file repEmpty fileB = Except.ok (rep1, res1) ∧
      import_changes_from_file rep1 fileB = Except.ok (rep1, res2) ∧
      res1.changes_applied = fileB.changes.length ∧
      res2.changes_applied = fileB.changes.length ∧
      res1.changes_received = fileB.changes.length ∧
      res2.changes_received = fileB.changes.length :=
  import_idempotent_count_received repEmpty fileB rfl List.Pairwise.nil
    (by decide) (by decide)

/-! Convergence of the bidirectional exchange. -/

theorem resolve_comm_val (a b : ChangeRecord)
    (hcoh : ordKey a = ordKey b → a.val = b.val) :
    (resolve (some a) b).val = (resolve (some b) a).val := by
  unfold resolve
  by_cases h1 : wins b a = true
  · have h2 : wins a b = false := by
      unfold wins at h1 ⊢
      exact verLt_asymm _ _ h1
    simp [h1, h2]
  · by_cases h2 : wins a b = true
    · simp [h1, h2]
    · have hord : ordKey a = ordKey b := by
        unfold wins at h1 h2
        exact verLt_connex _ _ (by simpa using h1) (by simpa using h2)
      simp [h1, h2, hcoh hord]

theorem syncFrom_ok (dst src : Replica)
    (hschema : ∀ r ∈ src.ledger, dst.schema.hasColumn r.table r.cid = true)
    (hsite : ∀ r ∈ src.ledger, goodSiteB r.site_id = true)
    (hver : ∀ r ∈ src.ledger, 0 < r.db_version) :
    syncFrom dst src = Except.ok
      (({ dst with ledger := List.foldl mergeOne dst.ledger (sortChanges src.ledger) } : Replica),
        (sortChanges src.ledger).length) := by
  have hfil : src.ledger.filter (fun r => decide ((0:Int) < r.db_version)) = src.ledger := by
    rw [List.filter_eq_self]
    intro a ha
    simpa using hver a ha
  have hexp : get_changes_since src 0 none false = (sortChanges src.ledger).map toWire := by
    show (sortChanges (src.ledger.filter
      (fun r => decide ((0:Int) < r.db_version)))).map toWire = _
    rw [hfil]
  have hsite2 : ∀ c ∈ (sortChanges src.ledger).map toWire,
      (siteIdFromWire c.site_id).isOk = true := by
    intro c hc
    obtain ⟨r, hr, rfl⟩ := List.mem_map.mp hc
    have hrs : r ∈ src.ledger := (mem_sortChanges r _).mp hr
    show (siteIdFromWire (siteToWire r.site_id)).isOk = true
    rw [siteIdFromWire_siteToWire r.site_id (hsite r hrs)]
    rfl
  have hcol2 : ∀ c ∈ (sortChanges src.ledger).map toWire,
      dst.schema.hasColumn c.table c.cid = true := by
    intro c hc
    obtain ⟨r, hr, rfl⟩ := List.mem_map.mp hc
    exact hschema r ((mem_sortChanges r _).mp hr)
  have hrt : ((sortChanges src.ledger).map toWire).map fromWire = sortChanges src.ledger := by
    rw [List.map_map]
    have hcong : ∀ r ∈ sortChanges src.ledger, (fromWire ∘ toWire) r = id r := by
      intro r hr
      show fromWire (toWire r) = r
      exact fromWire_toWire r (hsite r ((mem_sortChanges r _).mp hr))
    rw [List.map_congr_left hcong, List.map_id]
  unfold syncFrom
  rw [hexp]
  unfold apply_changes
  rw [applyLoop_commits dst.schema _ dst.ledger 0 hsite2 hcol2, hrt]
  simp

theorem lookup_after_sync (dst src : Replica) (hwfsrc : distinctKeys src.ledger)
    (k : String × Val × String) :
    lookupCell (List.foldl mergeOne dst.ledger (sortChanges src.ledger)) k =
      cellFold k (lookupCell dst.ledger k) (filterKey k src.ledger) := by
  rw [lookupCell_foldl, cellFold_filterKey]
  congr 1
  exact perm_length_le_one_eq ((sortChanges_perm src.ledger).filter _)
    (filterKey_length_le_one k src.ledger hwfsrc)

/-- C1: convergence under bidirectional exchange. Two replicas that started
identical and then each applied their own local writes (expressed by the
hypotheses: well-formed one-record-per-cell ledgers, well-formed site ids,
positive `db_version`s, a shared schema covering both ledgers, and coherence —
records of the two replicas for the same cell with the same `(column_version,
site_id)` conflict key carry the same value, which holds whenever the ledgers
differ only by writes stamped with the two replicas' distinct site ids) reach
the same value for every (table, primary key, column) after each applies the
other's full export via `apply_changes`, in either direction. -/
theorem sync_convergence (A B : Replica)
    (hschemaB : ∀ r ∈ B.ledger, A.schema.hasColumn r.table r.cid = true)
    (hschemaA : ∀ r ∈ A.ledger, B.schema.hasColumn r.table r.cid = true)
    (hwfA : distinctKeys A.ledger) (hwfB : distinctKeys B.ledger)
    (hsiteA : ∀ r ∈ A.ledger, goodSiteB r.site_id = true)
    (hsiteB : ∀ r ∈ B.ledger, goodSiteB r.site_id = true)
    (hverA : ∀ r ∈ A.ledger, 0 < r.db_version)
    (hverB : ∀ r ∈ B.ledger, 0 < r.db_version)
    (hcoh : ∀ a ∈ A.ledger, ∀ b ∈ B.ledger, keyOf a = keyOf b →
      ordKey a = ordKey b → a.val = b.val) :
    ∃ A2 nA B2 nB,
      syncFrom A B = Except.ok (A2, nA) ∧
      syncFrom B A = Except.ok (B2, nB) ∧
      ∀ k, (lookupCell A2.ledger k).map ChangeRecord.val =
        (lookupCell B2.ledger k).map ChangeRecord.val := by
  refine ⟨_, _, _, _, syncFrom_ok A B hschemaB hsiteB hverB,
    syncFrom_ok B A hschemaA hsiteA hverA, ?_⟩
  intro k
  show (lookupCell (List.foldl mergeOne A.ledger (sortChanges B.ledger)) k).map
      ChangeRecord.val =
    (lookupCell (List.foldl mergeOne B.ledger (sortChanges A.ledger)) k).map
      ChangeRecord.val
  rw [lookup_after_sync A B hwfB k, lookup_after_sync B A hwfA k,
    lookupCell_eq_head_filterKey k A.ledger, lookupCell_eq_head_filterKey k B.ledger]
  have hFA := filterKey_length_le_one k A.ledger hwfA
  have hFB := filterKey_length_le_one k B.ledger hwfB
  cases hfa : filterKey k A.ledger with
  | nil =>
    cases hfb : filterKey k B.ledger with
    | nil => rfl
    | cons b tb =>
      have htb : tb = [] := by
        rw [hfb] at hFB
        simp only [List.length_cons] at hFB
        exact List.length_eq_zero.mp (by omega)
      subst htb
      have hbmem : b ∈ B.ledger ∧ keyOf b = k := by
        have hm : b ∈ filterKey k B.ledger := by rw [hfb]; simp
        have := List.mem_filter.mp hm
        exact ⟨this.1, by simpa using this.2⟩
      rw [cellFold_step, if_pos hbmem.2]
      rfl
  | cons a ta =>
    have hta : ta = [] := by
      rw [hfa] at hFA
      simp only [List.length_cons] at hFA
      exact List.length_eq_zero.mp (by omega)
    subst hta
    have hamem : a ∈ A.ledger ∧ keyOf a = k := by
      have hm : a ∈ filterKey k A.ledger := by rw [hfa]; simp
      have := List.mem_filter.mp hm
      exact ⟨this.1, by simpa using this.2⟩
    cases hfb : filterKey k B.ledger with
    | nil =>
      rw [cellFold_step, if_pos hamem.2]
      rfl
    | cons b tb =>
      have htb : tb = [] := by
        rw [hfb] at hFB
        simp only [List.length_cons] at hFB
        exact List.length_eq_zero.mp (by omega)
      subst htb
      have hbmem : b ∈ B.ledger ∧ keyOf b = k := by
        have hm : b ∈ filterKey k B.ledger := by rw [hfb]; simp
        have := List.mem_filter.mp hm
        exact ⟨this.1, by simpa using this.2⟩
      rw [cellFold_step, if_pos hbmem.2, cellFold_step, if_pos hamem.2]
      show ((cellFold k (some (resolve (some a) b)) []).map ChangeRecord.val) = _
      have hcomm := resolve_comm_val a b
        (hcoh a hamem.1 b hbmem.1 (hamem.2.trans hbmem.2.symm))
      simp [cellFold, hcomm]

/-- Witness for C1: the concrete replicas `repA` and `repB` hold conflicting
writes to the same cell and converge after exchanging exports. -/
theorem sync_convergence_witness :
    ∃ A2 nA B2 nB,
      syncFrom repA repB = Except.ok (A2, nA) ∧
      syncFrom repB repA = Except.ok (B2, nB) ∧
      ∀ k, (lookupCell A2.ledger k).map ChangeRecord.val =
        (lookupCell B2.ledger k).map ChangeRecord.val :=
  sync_convergence repA repB (by decide) (by decide)
    (by simp [distinctKeys, repA]) (by simp [distinctKeys, repB])
    (by decide) (by decide) (by decide) (by decide) (by decide)
